import Mathlib

/-!
Verification of the frontend update logic of a macOS app-update manager.

The TypeScript sources embedded here:
* `src/lib/version-utils.ts` — `isVersionNewer`
* `src/lib/tauri-commands.ts` — `getUpdateHistory`
* `src/stores/updateProgressStore.ts` — the update-progress store
* `src/hooks/useUpdateProgress.ts` — the `update-execute-complete` handler
* `AppListView.tsx` — `filterApps`
* `delegation.ts` — `isDelegatedUpdate`
* `App.tsx` — `DesktopApp` / `MenuBarApp` aggregate counts and startup effect

JavaScript numbers are idealised as exact values (rationals extended with
±Infinity and NaN); IEEE-754 rounding is not modelled.  None of the
properties proved below depend on rounding.
-/

/-- The value space of a JavaScript number: NaN, ±Infinity, or a finite
value (idealised as an exact rational). -/
inductive JSNum : Type
  | nan : JSNum
  | posInf : JSNum
  | negInf : JSNum
  | fin : ℚ → JSNum
deriving DecidableEq, Repr

namespace JSNum

/-- JavaScript `<` on numbers: any comparison involving NaN is false;
-Infinity is below everything else, +Infinity above. -/
def blt : JSNum → JSNum → Bool
  | .nan, _ => false
  | _, .nan => false
  | .negInf, .negInf => false
  | .negInf, _ => true
  | _, .negInf => false
  | .posInf, _ => false
  | .fin _, .posInf => true
  | .fin a, .fin b => decide (a < b)

/-- Returns `true` unless the value is NaN. -/
def notNan : JSNum → Bool
  | .nan => false
  | _ => true

theorem blt_irrefl (x : JSNum) : blt x x = false := by
  cases x <;> simp [blt]

theorem blt_asymm {x y : JSNum} (h : blt x y = true) : blt y x = false := by
  cases x <;> cases y <;> simp_all [blt]
  linarith

theorem blt_trans {x y z : JSNum} (hxy : blt x y = true) (hyz : blt y z = true) :
    blt x z = true := by
  cases x <;> cases y <;> cases z <;> simp_all [blt]
  exact lt_trans hxy hyz

/-- Totality on non-NaN values: two incomparable non-NaN numbers are equal. -/
theorem eq_of_not_blt {x y : JSNum} (hx : notNan x = true) (hy : notNan y = true)
    (h1 : blt x y = false) (h2 : blt y x = false) : x = y := by
  cases x <;> cases y <;> simp_all [blt, notNan]
  linarith

end JSNum

/-! ### The JavaScript `Number(string)` conversion

`Number` trims whitespace, maps the empty remainder to `0`, accepts
`[+-]?Infinity`, unsigned hex/octal/binary literals (`0x…`, `0o…`, `0b…`),
and signed decimal literals with optional fraction and exponent; every
other string converts to NaN. -/

/-- Numeric value of a digit list in base `b` (most significant first). -/
def digitsVal (b : ℕ) (ds : List ℕ) : ℕ :=
  ds.foldl (fun acc d => acc * b + d) 0

/-- Value of a hexadecimal digit, if the character is one. -/
def hexDigitVal (c : Char) : Option ℕ :=
  if c.isDigit then some (c.toNat - 48)
  else if 'a' ≤ c ∧ c ≤ 'f' then some (c.toNat - 97 + 10)
  else if 'A' ≤ c ∧ c ≤ 'F' then some (c.toNat - 65 + 10)
  else none

/-- Map a character list through a digit valuation, failing if any
character is not a digit of the radix. -/
def parseRadixDigits (dv : Char → Option ℕ) : List Char → Option (List ℕ)
  | [] => some []
  | c :: cs => do
    let d ← dv c
    let ds ← parseRadixDigits dv cs
    pure (d :: ds)

/-- Decimal digit valuation. -/
def decDigitVal (c : Char) : Option ℕ :=
  if c.isDigit then some (c.toNat - 48) else none

/-- Octal digit valuation. -/
def octDigitVal (c : Char) : Option ℕ :=
  if '0' ≤ c ∧ c ≤ '7' then some (c.toNat - 48) else none

/-- Binary digit valuation. -/
def binDigitVal (c : Char) : Option ℕ :=
  if c = '0' then some 0 else if c = '1' then some 1 else none

/-- Parse a non-empty run of digits in the given radix to its value. -/
def radixVal (dv : Char → Option ℕ) (b : ℕ) (cs : List Char) : Option ℕ :=
  match cs with
  | [] => none
  | _ => (parseRadixDigits dv cs).map (digitsVal b)

/-- Parse the exponent part of a decimal literal (after the `e`/`E`):
an optional sign followed by a non-empty digit run. -/
def expPartVal (cs : List Char) : Option ℤ :=
  match cs with
  | '+' :: ds => (radixVal decDigitVal 10 ds).map Int.ofNat
  | '-' :: ds => (radixVal decDigitVal 10 ds).map (fun n => -(Int.ofNat n))
  | ds => (radixVal decDigitVal 10 ds).map Int.ofNat

/-- Parse the mantissa of a decimal literal: `digits`, `digits.digits?`,
or `.digits`, with at least one digit overall. -/
def mantissaVal (cs : List Char) : Option ℚ :=
  let ip := cs.takeWhile (fun c => c ≠ '.')
  let rest := cs.dropWhile (fun c => c ≠ '.')
  match rest with
  | [] => do
    let n ← radixVal decDigitVal 10 ip
    pure (n : ℚ)
  | _ :: fp =>
    if fp.any (fun c => c = '.') then none
    else do
      let ids ← parseRadixDigits decDigitVal ip
      let fds ← parseRadixDigits decDigitVal fp
      if ids.isEmpty ∧ fds.isEmpty then none
      else pure ((digitsVal 10 ids : ℚ) + (digitsVal 10 fds : ℚ) / 10 ^ fds.length)

/-- Parse an unsigned decimal literal with optional exponent. -/
def decLiteralVal (cs : List Char) : Option ℚ :=
  let mant := cs.takeWhile (fun c => c ≠ 'e' ∧ c ≠ 'E')
  let rest := cs.dropWhile (fun c => c ≠ 'e' ∧ c ≠ 'E')
  match rest with
  | [] => mantissaVal mant
  | _ :: es => do
    let m ← mantissaVal mant
    let e ← expPartVal es
    pure (m * 10 ^ e)

/-- Parse an unsigned numeric body: `Infinity`, a radix-prefixed integer
literal, or a decimal literal. -/
def unsignedNumVal (cs : List Char) : JSNum :=
  if cs = "Infinity".data then .posInf
  else
    match cs with
    | '0' :: 'x' :: ds => match radixVal hexDigitVal 16 ds with
      | some n => .fin (n : ℚ)
      | none => .nan
    | '0' :: 'X' :: ds => match radixVal hexDigitVal 16 ds with
      | some n => .fin (n : ℚ)
      | none => .nan
    | '0' :: 'o' :: ds => match radixVal octDigitVal 8 ds with
      | some n => .fin (n : ℚ)
      | none => .nan
    | '0' :: 'O' :: ds => match radixVal octDigitVal 8 ds with
      | some n => .fin (n : ℚ)
      | none => .nan
    | '0' :: 'b' :: ds => match radixVal binDigitVal 2 ds with
      | some n => .fin (n : ℚ)
      | none => .nan
    | '0' :: 'B' :: ds => match radixVal binDigitVal 2 ds with
      | some n => .fin (n : ℚ)
      | none => .nan
    | _ => match decLiteralVal cs with
      | some q => .fin q
      | none => .nan

/-- Parse a possibly signed body; a sign may precede only `Infinity` or a
decimal literal (never a radix-prefixed literal). -/
def signedNumVal (cs : List Char) : JSNum :=
  match cs with
  | '+' :: rest =>
    if rest = "Infinity".data then .posInf
    else match decLiteralVal rest with
      | some q => .fin q
      | none => .nan
  | '-' :: rest =>
    if rest = "Infinity".data then .negInf
    else match decLiteralVal rest with
      | some q => .fin (-q)
      | none => .nan
  | _ => unsignedNumVal cs

/-- JavaScript `Number(string)`: trim whitespace, convert the empty string
to `0`, otherwise parse the numeric body. -/
def jsNumber (s : String) : JSNum :=
  let t := (s.data.dropWhile Char.isWhitespace).reverse.dropWhile Char.isWhitespace |>.reverse
  if t.isEmpty then .fin 0 else signedNumVal t

/-! ### `isVersionNewer` (src/lib/version-utils.ts)

```ts
export function isVersionNewer(current: string, available: string): boolean {
  const currentParts = current.split(".").map(Number);
  const availableParts = available.split(".").map(Number);
  const maxLen = Math.max(currentParts.length, availableParts.length);
  for (let i = 0; i < maxLen; i++) {
    const a = currentParts[i] || 0;
    const b = availableParts[i] || 0;
    if (b > a) return true;
    if (b < a) return false;
  }
  return false;
}
```
-/

/-- Source `s.split(".")` on the character list: split at every occurrence of
`'.'`, keeping empty segments (so `"" ↦ [""]`, `"a..b" ↦ ["a","","b"]`). -/
def splitOnDot : List Char → List (List Char)
  | [] => [[]]
  | c :: rest =>
    match splitOnDot rest with
    | [] => [[]]
    | seg :: segs => if c = '.' then [] :: seg :: segs else (c :: seg) :: segs

/-- Source `current.split(".").map(Number)`. -/
def versionParts (s : String) : List JSNum :=
  (splitOnDot s.data).map (fun seg => jsNumber (String.mk seg))

/-- Source `parts[i] || 0`: an out-of-range index yields `undefined` and the
falsy values (`undefined`, NaN, ±0) all coalesce to `0`. -/
def partAt (xs : List JSNum) (i : ℕ) : JSNum :=
  match xs.getD i .nan with
  | .nan => .fin 0
  | .fin q => .fin q
  | v => v

/-- The `for` loop of `isVersionNewer`, with `fuel` the number of
remaining iterations (`maxLen - i`). -/
def isVersionNewerLoop (cur avail : List JSNum) (i : ℕ) : ℕ → Bool
  | 0 => false
  | fuel + 1 =>
    let a := partAt cur i
    let b := partAt avail i
    if JSNum.blt a b then true
    else if JSNum.blt b a then false
    else isVersionNewerLoop cur avail (i + 1) fuel

/-- Function `isVersionNewer` from `src/lib/version-utils.ts`. -/
def isVersionNewer (current available : String) : Bool :=
  let currentParts := versionParts current
  let availableParts := versionParts available
  let maxLen := max currentParts.length availableParts.length
  isVersionNewerLoop currentParts availableParts 0 maxLen

example : isVersionNewer "1.9" "1.10" = true := by decide
example : isVersionNewer "1.2" "1.2.0" = false := by decide
example : isVersionNewer "2.0-rc.1" "2.0" = false := by decide

/-! ### A declarative view of the comparison loop

The loop compares the two part lists position by position, reading a
coalesced value at each index; this is a strict lexicographic comparison
of the two streams of coalesced values. -/

/-- Strict lexicographic comparison of two lists of JS numbers, stepping
with `blt` exactly as the loop body does. -/
def ltLexB : List JSNum → List JSNum → Bool
  | a :: as, b :: bs =>
    if JSNum.blt a b then true
    else if JSNum.blt b a then false
    else ltLexB as bs
  | _, _ => false

theorem ltLexB_nil_left (ys : List JSNum) : ltLexB [] ys = false := by
  cases ys <;> rfl

theorem ltLexB_nil_right (xs : List JSNum) : ltLexB xs [] = false := by
  cases xs <;> rfl

theorem ltLexB_cons (a b : JSNum) (as bs : List JSNum) :
    ltLexB (a :: as) (b :: bs) =
      (if JSNum.blt a b then true else if JSNum.blt b a then false else ltLexB as bs) := rfl

theorem ltLexB_irrefl : ∀ xs : List JSNum, ltLexB xs xs = false
  | [] => rfl
  | x :: xs => by
    rw [ltLexB_cons, JSNum.blt_irrefl, ltLexB_irrefl xs]
    simp

theorem ltLexB_asymm : ∀ xs ys : List JSNum,
    ltLexB xs ys = true → ltLexB ys xs = false
  | [], ys, h => by rw [ltLexB_nil_left] at h; exact absurd h (by simp)
  | x :: xs, [], h => by rw [ltLexB_nil_right] at h; exact absurd h (by simp)
  | a :: as, b :: bs, h => by
    rw [ltLexB_cons] at h
    rw [ltLexB_cons]
    cases hab : JSNum.blt a b with
    | true =>
      have hba := JSNum.blt_asymm hab
      simp [hba, hab]
    | false =>
      cases hba : JSNum.blt b a with
      | true => simp [hab, hba] at h
      | false =>
        rw [hab, hba] at h
        simp only [Bool.false_eq_true, if_false] at h
        simp only [hab, hba, Bool.false_eq_true, if_false]
        exact ltLexB_asymm as bs h

theorem ltLexB_trans : ∀ xs ys zs : List JSNum,
    (∀ v ∈ xs, v.notNan = true) → (∀ v ∈ ys, v.notNan = true) →
    (∀ v ∈ zs, v.notNan = true) →
    ltLexB xs ys = true → ltLexB ys zs = true → ltLexB xs zs = true
  | [], ys, zs, _, _, _, h, _ => by rw [ltLexB_nil_left] at h; exact absurd h (by simp)
  | x :: xs, [], zs, _, _, _, h, _ => by rw [ltLexB_nil_right] at h; exact absurd h (by simp)
  | x :: xs, y :: ys, [], _, _, _, _, h => by
    rw [ltLexB_nil_right] at h; exact absurd h (by simp)
  | a :: as, b :: bs, c :: cs, hx, hy, hz, h1, h2 => by
    rw [ltLexB_cons] at h1 h2
    rw [ltLexB_cons]
    cases hab : JSNum.blt a b with
    | true =>
      cases hbc : JSNum.blt b c with
      | true =>
        rw [JSNum.blt_trans hab hbc]
        simp
      | false =>
        cases hcb : JSNum.blt c b with
        | true => simp [hbc, hcb] at h2
        | false =>
          have hbc' : b = c :=
            JSNum.eq_of_not_blt (hy b (by simp)) (hz c (by simp)) hbc hcb
          rw [← hbc', hab]
          simp
    | false =>
      cases hba : JSNum.blt b a with
      | true => simp [hab, hba] at h1
      | false =>
        have hab' : a = b :=
          JSNum.eq_of_not_blt (hx a (by simp)) (hy b (by simp)) hab hba
        subst hab'
        cases hac : JSNum.blt a c with
        | true => simp
        | false =>
          cases hca : JSNum.blt c a with
          | true => simp [hac, hca] at h2
          | false =>
            simp only [Bool.false_eq_true, if_false]
            exact ltLexB_trans as bs cs (fun v hv => hx v (by simp [hv]))
              (fun v hv => hy v (by simp [hv])) (fun v hv => hz v (by simp [hv]))
              (by simpa [hab, hba] using h1) (by simpa [hac, hca] using h2)

theorem partAt_notNan (xs : List JSNum) (i : ℕ) : (partAt xs i).notNan = true := by
  unfold partAt
  cases xs.getD i .nan <;> simp [JSNum.notNan]

theorem partAt_of_length_le {xs : List JSNum} {i : ℕ} (h : xs.length ≤ i) :
    partAt xs i = .fin 0 := by
  unfold partAt
  rw [List.getD_eq_default _ _ h]

/-- The first `m` coalesced values read from a part list. -/
def partKeys (xs : List JSNum) (m : ℕ) : List JSNum :=
  (List.range m).map (partAt xs)

theorem isVersionNewerLoop_eq_ltLexB (cur avail : List JSNum) :
    ∀ (fuel i : ℕ),
      isVersionNewerLoop cur avail i fuel =
        ltLexB ((List.range' i fuel).map (partAt cur))
               ((List.range' i fuel).map (partAt avail)) := by
  intro fuel
  induction fuel with
  | zero => intro i; rfl
  | succ n ih =>
    intro i
    rw [List.range'_succ, List.map_cons, List.map_cons, ltLexB_cons]
    show (if JSNum.blt (partAt cur i) (partAt avail i) then true
          else if JSNum.blt (partAt avail i) (partAt cur i) then false
          else isVersionNewerLoop cur avail (i + 1) n) = _
    rw [ih (i + 1)]

theorem isVersionNewer_eq_ltLexB (a b : String) :
    isVersionNewer a b =
      ltLexB (partKeys (versionParts a) (max (versionParts a).length (versionParts b).length))
             (partKeys (versionParts b) (max (versionParts a).length (versionParts b).length)) := by
  unfold isVersionNewer partKeys
  rw [isVersionNewerLoop_eq_ltLexB, List.range_eq_range']

theorem partKeys_append {xs : List JSNum} {n m : ℕ} (hn : xs.length ≤ n) (hnm : n ≤ m) :
    partKeys xs m = partKeys xs n ++ List.replicate (m - n) (.fin 0) := by
  obtain ⟨k, rfl⟩ : ∃ k, m = n + k := ⟨m - n, by omega⟩
  unfold partKeys
  rw [Nat.add_sub_cancel_left, List.range_add, List.map_append]
  congr 1
  rw [List.map_map]
  refine List.eq_replicate_iff.mpr ⟨by simp, ?_⟩
  intro v hv
  rw [List.mem_map] at hv
  obtain ⟨j, _, hj⟩ := hv
  rw [← hj]
  show partAt xs (n + j) = JSNum.fin 0
  exact partAt_of_length_le (by omega)

theorem ltLexB_append : ∀ (u v s t : List JSNum), u.length = v.length →
    ltLexB (u ++ s) (v ++ t) = (ltLexB u v || (!(ltLexB v u) && ltLexB s t))
  | [], [], s, t, _ => by simp [ltLexB_nil_left]
  | [], b :: v, s, t, h => by simp at h
  | a :: u, [], s, t, h => by simp at h
  | a :: u, b :: v, s, t, h => by
    rw [List.cons_append, List.cons_append, ltLexB_cons, ltLexB_cons, ltLexB_cons]
    cases hab : JSNum.blt a b with
    | true =>
      have hba := JSNum.blt_asymm hab
      simp [hba]
    | false =>
      cases hba : JSNum.blt b a with
      | true => simp
      | false =>
        simp only [Bool.false_eq_true, if_false]
        exact ltLexB_append u v s t (by simpa using h)

theorem ltLexB_partKeys_stable {a b : List JSNum} {n m : ℕ}
    (ha : a.length ≤ n) (hb : b.length ≤ n) (hnm : n ≤ m) :
    ltLexB (partKeys a m) (partKeys b m) = ltLexB (partKeys a n) (partKeys b n) := by
  rw [partKeys_append ha hnm, partKeys_append hb hnm,
    ltLexB_append _ _ _ _ (by simp [partKeys]), ltLexB_irrefl]
  simp

theorem partKeys_length (xs : List JSNum) (m : ℕ) : (partKeys xs m).length = m := by
  simp [partKeys]

theorem partKeys_notNan (xs : List JSNum) (m : ℕ) :
    ∀ v ∈ partKeys xs m, v.notNan = true := by
  intro v hv
  rw [partKeys, List.mem_map] at hv
  obtain ⟨i, _, hi⟩ := hv
  rw [← hi]
  exact partAt_notNan xs i

/-- C4: the strict order induced by `isVersionNewer` is a strict partial
order on version strings: `isVersionNewer v v` is always `false`;
`isVersionNewer a b` and `isVersionNewer b a` are never both `true`; and
`isVersionNewer` is transitive. -/
theorem isVersionNewer_strictOrder :
    (∀ v : String, isVersionNewer v v = false)
    ∧ (∀ a b : String, ¬(isVersionNewer a b = true ∧ isVersionNewer b a = true))
    ∧ (∀ a b c : String, isVersionNewer a b = true → isVersionNewer b c = true →
        isVersionNewer a c = true) := by
  refine ⟨?_, ?_, ?_⟩
  · intro v
    rw [isVersionNewer_eq_ltLexB]
    exact ltLexB_irrefl _
  · rintro a b ⟨h1, h2⟩
    rw [isVersionNewer_eq_ltLexB] at h1 h2
    rw [Nat.max_comm (versionParts b).length (versionParts a).length] at h2
    rw [ltLexB_asymm _ _ h1] at h2
    exact absurd h2 (by simp)
  · intro a b c h1 h2
    rw [isVersionNewer_eq_ltLexB] at h1 h2 ⊢
    set la := (versionParts a).length with hla
    set lb := (versionParts b).length with hlb
    set lc := (versionParts c).length with hlc
    set M := max (max la lb) lc with hM
    rw [← ltLexB_partKeys_stable (le_max_left la lb) (le_max_right la lb)
      (le_max_left _ lc)] at h1
    rw [← ltLexB_partKeys_stable (le_max_left lb lc) (le_max_right lb lc)
      (by omega : max lb lc ≤ M)] at h2
    rw [← ltLexB_partKeys_stable (le_max_left la lc) (le_max_right la lc)
      (by omega : max la lc ≤ M)]
    exact ltLexB_trans _ _ _ (partKeys_notNan _ _) (partKeys_notNan _ _)
      (partKeys_notNan _ _) h1 h2

theorem ltLexB_map_iff (f g : ℕ → JSNum)
    (hf : ∀ k, (f k).notNan = true) (hg : ∀ k, (g k).notNan = true) :
    ∀ n i : ℕ, (ltLexB ((List.range' i n).map f) ((List.range' i n).map g) = true ↔
      ∃ j, i ≤ j ∧ j < i + n ∧ (∀ k, i ≤ k → k < j → f k = g k) ∧
        JSNum.blt (f j) (g j) = true) := by
  intro n
  induction n with
  | zero =>
    intro i
    simp only [List.range'_zero, List.map_nil, ltLexB_nil_left]
    constructor
    · intro h
      exact absurd h (by simp)
    · rintro ⟨j, hj1, hj2, -, -⟩
      omega
  | succ n ih =>
    intro i
    rw [List.range'_succ, List.map_cons, List.map_cons, ltLexB_cons]
    constructor
    · intro h
      cases hfg : JSNum.blt (f i) (g i) with
      | true =>
        exact ⟨i, le_refl i, by omega, fun k hk1 hk2 => absurd hk1 (by omega), hfg⟩
      | false =>
        cases hgf : JSNum.blt (g i) (f i) with
        | true =>
          rw [hfg, hgf] at h
          simp at h
        | false =>
          have heq : f i = g i := JSNum.eq_of_not_blt (hf i) (hg i) hfg hgf
          have h' : ltLexB ((List.range' (i + 1) n).map f)
              ((List.range' (i + 1) n).map g) = true := by
            simpa [hfg, hgf] using h
          obtain ⟨j, hj1, hj2, hj3, hj4⟩ := (ih (i + 1)).mp h'
          refine ⟨j, by omega, by omega, ?_, hj4⟩
          intro k hk1 hk2
          rcases Nat.eq_or_lt_of_le hk1 with hki | hki
          · subst hki
            exact heq
          · exact hj3 k (by omega) hk2
    · rintro ⟨j, hj1, hj2, hj3, hj4⟩
      by_cases hji : j = i
      · subst hji
        rw [hj4]
        simp
      · have heq : f i = g i := hj3 i (le_refl i) (by omega)
        have hfg : JSNum.blt (f i) (g i) = false := by
          rw [heq]
          exact JSNum.blt_irrefl _
        have hgf : JSNum.blt (g i) (f i) = false := by
          rw [heq]
          exact JSNum.blt_irrefl _
        rw [hfg, hgf]
        simp only [Bool.false_eq_true, if_false]
        exact (ih (i + 1)).mpr
          ⟨j, by omega, by omega, fun k hk1 hk2 => hj3 k (by omega) hk2, hj4⟩

/-- The stream of coalesced numeric values the loop reads from a version
string: index `i` yields `parts[i] || 0`. -/
def versionKey (v : String) (i : ℕ) : JSNum :=
  partAt (versionParts v) i

/-- C1 (amended): `isVersionNewer installed available` returns `true`
exactly when, comparing the dot-split segments mapped through the JS
`Number` conversion — where a segment that does not parse as a JS numeric
literal becomes NaN and every falsy value (NaN, missing trailing segment,
±0) coalesces to `0` — the `available` value stream is strictly greater
than the `installed` stream at the first differing index.  Non-numeric
segments (including pre-release suffixes such as `-alpha`, `-beta.N`,
`-rc.N`) receive no lexicographic or pre-release treatment: they all rank
as `0`. -/
theorem isVersionNewer_iff_firstDiff (installed available : String) :
    isVersionNewer installed available = true ↔
      ∃ j : ℕ, (∀ k, k < j → versionKey installed k = versionKey available k) ∧
        JSNum.blt (versionKey installed j) (versionKey available j) = true := by
  rw [isVersionNewer_eq_ltLexB]
  unfold partKeys
  rw [List.range_eq_range']
  rw [ltLexB_map_iff (partAt (versionParts installed)) (partAt (versionParts available))
    (partAt_notNan _) (partAt_notNan _)
    (max (versionParts installed).length (versionParts available).length) 0]
  unfold versionKey
  constructor
  · rintro ⟨j, -, -, h3, h4⟩
    exact ⟨j, fun k hk => h3 k (by omega) hk, h4⟩
  · rintro ⟨j, h3, h4⟩
    have hjM : j < max (versionParts installed).length (versionParts available).length := by
      by_contra hge
      push_neg at hge
      rw [partAt_of_length_le (by omega), partAt_of_length_le (by omega)] at h4
      exact absurd h4 (by simp [JSNum.blt])
    exact ⟨j, by omega, by omega, fun k _ hk => h3 k hk, h4⟩

/-- Witness for the amended C1 at a concrete pair: `"1.9" < "1.10"` has
its first difference at index 1, where `9 < 10`. -/
theorem isVersionNewer_iff_firstDiff_witness :
    ∃ j : ℕ, (∀ k, k < j → versionKey "1.9" k = versionKey "1.10" k) ∧
      JSNum.blt (versionKey "1.9" j) (versionKey "1.10" j) = true :=
  (isVersionNewer_iff_firstDiff "1.9" "1.10").mp (by decide)

/-! ### The spec's version comparator (§4.3), for comparison

Formalised from the spec's words, not from the code: "split on `.`,
compare segment-by-segment; a segment that parses as an integer ranks by
integer value, otherwise by lexicographic ordering; missing trailing
segments are treated as zero; a pre-release suffix (`-alpha`, `-beta.N`,
`-rc.N`) ranks lower than the same prefix without a suffix." -/

/-- A segment parses as an integer when it is a non-empty digit run. -/
def segIsInt (s : List Char) : Bool :=
  !s.isEmpty && s.all Char.isDigit

/-- Integer value of an all-digit segment. -/
def segIntVal (s : List Char) : ℕ :=
  digitsVal 10 (s.map (fun c => c.toNat - 48))

/-- Lexicographic comparison of two character lists. -/
def lexCmpChars : List Char → List Char → Ordering
  | [], [] => .eq
  | [], _ :: _ => .lt
  | _ :: _, [] => .gt
  | a :: as, b :: bs =>
    if a < b then .lt else if b < a then .gt else lexCmpChars as bs

/-- Spec segment comparison: integer segments rank by integer value,
any other pair ranks lexicographically. -/
def segCmp (a b : List Char) : Ordering :=
  if segIsInt a && segIsInt b then
    if segIntVal a < segIntVal b then .lt
    else if segIntVal b < segIntVal a then .gt
    else .eq
  else lexCmpChars a b

/-- Segment-by-segment comparison of two equal-length segment lists. -/
def dottedCmpPadded : List (List Char) → List (List Char) → Ordering
  | [], _ => .eq
  | _, [] => .eq
  | a0 :: as, b0 :: bs =>
    match segCmp a0 b0 with
    | .eq => dottedCmpPadded as bs
    | o => o

/-- Pad a segment list with `"0"` segments up to length `n`. -/
def padZeroSegs (l : List (List Char)) (n : ℕ) : List (List Char) :=
  l ++ List.replicate (n - l.length) ['0']

/-- Spec dotted comparison, segment-by-segment with missing trailing
segments treated as the segment `"0"`. -/
def dottedCmp (a b : List (List Char)) : Ordering :=
  dottedCmpPadded (padZeroSegs a (max a.length b.length))
    (padZeroSegs b (max a.length b.length))

/-- Split a version at its first `-` into a prefix and an optional
pre-release suffix. -/
def splitPreRelease (s : String) : List Char × Option (List Char) :=
  let base := s.data.takeWhile (fun c => c ≠ '-')
  match s.data.dropWhile (fun c => c ≠ '-') with
  | [] => (base, none)
  | _ :: suf => (base, some suf)

/-- The spec's comparator: compare the prefixes by dotted comparison; on
equal prefixes a version with a pre-release suffix ranks lower than one
without, and two suffixes compare by dotted comparison. -/
def specCmp (a b : String) : Ordering :=
  match splitPreRelease a, splitPreRelease b with
  | (ab, ap), (bb, bp) =>
    match dottedCmp (splitOnDot ab) (splitOnDot bb) with
    | .lt => .lt
    | .gt => .gt
    | .eq =>
      match ap, bp with
      | none, none => .eq
      | some _, none => .lt
      | none, some _ => .gt
      | some x, some y => dottedCmp (splitOnDot x) (splitOnDot y)

/-- Whether `available` ranks strictly higher than `installed` under the spec's
reference order. -/
def specRanksHigher (installed available : String) : Bool :=
  specCmp installed available = Ordering.lt

example : specRanksHigher "1.2" "1.2.0" = false := by decide
example : specRanksHigher "1.2.0" "1.2" = false := by decide
example : specRanksHigher "1.9" "1.10" = true := by decide
example : specRanksHigher "2.0-rc.1" "2.0" = true := by decide
example : specRanksHigher "1.0-alpha" "1.0-beta" = true := by decide

/-- C1 counterexample: `isVersionNewer` does not implement the spec's
reference order.  At `installed = "2.0-rc.1"`, `available = "2.0"` the
reference order ranks `"2.0"` strictly higher (pre-release below release)
but the code returns `false`: `Number("0-rc")` is NaN, which `|| 0`
coalesces to `0`, so the code sees `[2,0,1]` vs `[2,0,0]`. -/
theorem isVersionNewer_ne_specRanksHigher :
    ¬ ∀ installed available : String,
        isVersionNewer installed available = specRanksHigher installed available := by
  intro h
  exact absurd (h "2.0-rc.1" "2.0") (by decide)

/-- C3 counterexample: the spec's worked examples do not all hold of
`isVersionNewer`.  The pre-release examples fail: the code returns
`false` for `("2.0-rc.1", "2.0")` (the claim says `true`) and `false`
for `("1.0-alpha", "1.0-beta")` (the claim says `true`). -/
theorem isVersionNewer_workedExamples_fail :
    ¬(isVersionNewer "1.9" "1.10" = true ∧ isVersionNewer "1.10" "1.9" = false ∧
      isVersionNewer "1.2" "1.2.0" = false ∧ isVersionNewer "1.2.0" "1.2" = false ∧
      isVersionNewer "2.0-rc.1" "2.0" = true ∧
      isVersionNewer "1.0-alpha" "1.0-beta" = true) := by
  decide

/-- C3 (amended): under `isVersionNewer`, `"1.2"` and `"1.2.0"` compare
equal and `"1.10"` ranks strictly above `"1.9"`, as the spec says; but
`"2.0-rc.1"` ranks strictly ABOVE `"2.0"` (its third segment coalesces
to the numeric list `[2,0,1]` against `[2,0,0]`), and `"1.0-alpha"` and
`"1.0-beta"` compare equal (both coalesce to `[1,0]`). -/
theorem isVersionNewer_workedExamples :
    isVersionNewer "1.2" "1.2.0" = false ∧ isVersionNewer "1.2.0" "1.2" = false ∧
    isVersionNewer "1.9" "1.10" = true ∧ isVersionNewer "1.10" "1.9" = false ∧
    isVersionNewer "2.0-rc.1" "2.0" = false ∧ isVersionNewer "2.0" "2.0-rc.1" = true ∧
    isVersionNewer "1.0-alpha" "1.0-beta" = false ∧
    isVersionNewer "1.0-beta" "1.0-alpha" = false := by
  decide

/-- Witness for C4 at concrete inputs: transitivity applied to
`"1.2" < "1.3" < "2.0"`. -/
theorem isVersionNewer_strictOrder_witness :
    isVersionNewer "1.2" "2.0" = true :=
  isVersionNewer_strictOrder.2.2 "1.2" "1.3" "2.0" (by decide) (by decide)

/-! ### The app summary record (src/types/app.ts `AppSummary`)

Nullable fields become `Option`; numeric ids become `ℤ`. -/

structure AppSummary where
  id : ℤ
  bundleId : String
  displayName : String
  appPath : String
  installedVersion : Option String
  installSource : String
  isIgnored : Bool
  iconCachePath : Option String
  hasUpdate : Bool
  availableVersion : Option String
  updateSource : Option String
  homebrewCaskToken : Option String
  homebrewFormulaName : Option String
  releaseNotes : Option String
  releaseNotesUrl : Option String
  updateNotes : Option String
  description : Option String
deriving DecidableEq, Repr

/-- JS truthiness of a nullable string: `null`/`undefined` and `""` are
falsy, every other string is truthy. -/
def truthyStr : Option String → Bool
  | none => false
  | some s => !(s == "")

/-! ### `isDelegatedUpdate` (delegation helper mirroring
`route_and_execute()`) -/

/-- Phase 2 of the routing decision: route by `installSource`. -/
def routePhase2 (app : AppSummary) : Bool :=
  if app.installSource = "homebrew_formula" ∧ truthyStr app.homebrewFormulaName = true then
    false
  else if app.installSource = "homebrew" ∧ truthyStr app.homebrewCaskToken = true then
    false
  else if app.installSource = "mac_app_store" then
    false
  else
    true

/-- Function `isDelegatedUpdate`: phase 1 routes by `updateSource` (the update
candidate's source type), with `homebrew_cask`/`github`/`homebrew_api`
direct only when a cask token is present and every unknown source falling
through to phase 2. -/
def isDelegatedUpdate (app : AppSummary) : Bool :=
  if truthyStr app.updateSource = true then
    match app.updateSource with
    | some "adobe_cc" => true
    | some "mas" => false
    | some "sparkle" => false
    | some "homebrew_cask" =>
      if truthyStr app.homebrewCaskToken = true then false else routePhase2 app
    | some "github" =>
      if truthyStr app.homebrewCaskToken = true then false else routePhase2 app
    | some "homebrew_api" =>
      if truthyStr app.homebrewCaskToken = true then false else routePhase2 app
    | _ => routePhase2 app
  else
    routePhase2 app

/-- C2: the two-phase routing decision of `isDelegatedUpdate`.  Phase 1:
`adobe_cc` is delegated; `mas` and `sparkle` are not; the three Homebrew-
backed sources are direct exactly when a cask token is present and fall
through to phase 2 otherwise; an absent source goes straight to phase 2.
Phase 2: `homebrew_formula` with a formula name, `homebrew` with a cask
token, and `mac_app_store` are direct; every remaining combination is
delegated. -/
theorem isDelegatedUpdate_routing (app : AppSummary) :
    (app.updateSource = some "adobe_cc" → isDelegatedUpdate app = true)
    ∧ (app.updateSource = some "mas" → isDelegatedUpdate app = false)
    ∧ (app.updateSource = some "sparkle" → isDelegatedUpdate app = false)
    ∧ ((app.updateSource = some "homebrew_cask" ∨ app.updateSource = some "github" ∨
        app.updateSource = some "homebrew_api") →
        (truthyStr app.homebrewCaskToken = true → isDelegatedUpdate app = false)
        ∧ (truthyStr app.homebrewCaskToken = false →
            isDelegatedUpdate app = routePhase2 app))
    ∧ (app.updateSource = none → isDelegatedUpdate app = routePhase2 app)
    ∧ (app.installSource = "homebrew_formula" → truthyStr app.homebrewFormulaName = true →
        routePhase2 app = false)
    ∧ (app.installSource = "homebrew" → truthyStr app.homebrewCaskToken = true →
        routePhase2 app = false)
    ∧ (app.installSource = "mac_app_store" → routePhase2 app = false)
    ∧ (¬(app.installSource = "homebrew_formula" ∧ truthyStr app.homebrewFormulaName = true) →
       ¬(app.installSource = "homebrew" ∧ truthyStr app.homebrewCaskToken = true) →
       app.installSource ≠ "mac_app_store" → routePhase2 app = true) := by
  refine ⟨?_, ?_, ?_, ?_, ?_, ?_, ?_, ?_, ?_⟩
  · intro h
    simp [isDelegatedUpdate, h, truthyStr]
  · intro h
    simp [isDelegatedUpdate, h, truthyStr]
  · intro h
    simp [isDelegatedUpdate, h, truthyStr]
  · intro h
    have e1 : truthyStr (some "homebrew_cask") = true := rfl
    have e2 : truthyStr (some "github") = true := rfl
    have e3 : truthyStr (some "homebrew_api") = true := rfl
    constructor
    · intro ht
      rcases h with h | h | h <;> simp [isDelegatedUpdate, h, ht, e1, e2, e3]
    · intro ht
      rcases h with h | h | h <;> simp [isDelegatedUpdate, h, ht, e1, e2, e3]
  · intro h
    simp [isDelegatedUpdate, h, truthyStr]
  · intro h ht
    simp [routePhase2, h, ht]
  · intro h ht
    simp [routePhase2, h, ht]
  · intro h
    simp [routePhase2, h]
  · intro h1 h2 h3
    simp [routePhase2, h1, h2, h3]

/-- A concrete Adobe Creative Cloud app for the routing witness. -/
def sampleAdobeApp : AppSummary :=
  { id := 1, bundleId := "com.adobe.Photoshop", displayName := "Photoshop",
    appPath := "/Applications/Photoshop.app", installedVersion := some "25.0",
    installSource := "adobe", isIgnored := false, iconCachePath := none,
    hasUpdate := true, availableVersion := some "26.0",
    updateSource := some "adobe_cc", homebrewCaskToken := none,
    homebrewFormulaName := none, releaseNotes := none, releaseNotesUrl := none,
    updateNotes := none, description := none }

/-- Witness for C2: the concrete Adobe app routes to the delegated
executor. -/
theorem isDelegatedUpdate_routing_witness : isDelegatedUpdate sampleAdobeApp = true :=
  (isDelegatedUpdate_routing sampleAdobeApp).1 rfl

/-! ### Aggregate update counts (`DesktopApp` / `MenuBarApp` in App.tsx) -/

/-- Source `DesktopApp`: `apps?.filter((a) => a.hasUpdate && !a.isIgnored).length ?? 0`. -/
def desktopUpdateCount (apps : Option (List AppSummary)) : ℕ :=
  match apps with
  | some l => (l.filter (fun a => a.hasUpdate && !a.isIgnored)).length
  | none => 0

/-- Source `MenuBarApp`: `apps?.filter((a) => a.hasUpdate && !a.isIgnored) ?? []`. -/
def menuBarUpdatableApps (apps : Option (List AppSummary)) : List AppSummary :=
  match apps with
  | some l => l.filter (fun a => a.hasUpdate && !a.isIgnored)
  | none => []

/-- C5: ignored apps are excluded from both aggregate update counts: for
every loaded app list, the desktop count and the menu-bar count both
equal the number of apps with `hasUpdate = true` and `isIgnored = false`. -/
theorem updateCount_excludes_ignored (apps : List AppSummary) :
    desktopUpdateCount (some apps) =
      apps.countP (fun a => decide (a.hasUpdate = true ∧ a.isIgnored = false))
    ∧ (menuBarUpdatableApps (some apps)).length =
      apps.countP (fun a => decide (a.hasUpdate = true ∧ a.isIgnored = false)) := by
  have hp : (fun a : AppSummary => a.hasUpdate && !a.isIgnored) =
      (fun a => decide (a.hasUpdate = true ∧ a.isIgnored = false)) := by
    funext a
    cases h1 : a.hasUpdate <;> cases h2 : a.isIgnored <;> simp [h1, h2]
  constructor <;>
    simp [desktopUpdateCount, menuBarUpdatableApps, hp, List.countP_eq_length_filter]

/-! ### Startup effect of `DesktopApp` (App.tsx)

The effect runs on each render once the settings query resolves, guarded
by a `hasRunStartup` ref; it is modelled as a pure step from the observed
query data and the ref to the action performed and the new ref value. -/

/-- The persisted settings record (src/types/settings.ts). -/
structure AppSettings where
  checkIntervalMinutes : ℤ
  launchAtLogin : Bool
  showMenuBarIcon : Bool
  notificationOnUpdates : Bool
  autoCheckOnLaunch : Bool
  theme : String
  ignoredBundleIds : List String
  scanLocations : List String
  scanDepth : ℤ
  showBadgeCount : Bool
  notificationSound : Bool
deriving DecidableEq, Repr

/-- The startup work an effect invocation performs: nothing, a full scan
followed (on scan success) by a check-all, or a check-all alone. -/
inductive StartupAction : Type
  | idle : StartupAction
  | scanThenCheckAll : StartupAction
  | checkAll : StartupAction
deriving DecidableEq, Repr

/-- One invocation of the startup effect: returns the action performed
and the new value of the `hasRunStartup` ref.  `settings = none` models
the settings query not yet resolved (the effect returns early without
touching the ref); `apps = none` models the apps query not yet resolved
(treated by the code like an empty catalog). -/
def startupEffect (settings : Option AppSettings) (apps : Option (List AppSummary))
    (hasRunStartup : Bool) : StartupAction × Bool :=
  match settings with
  | none => (.idle, hasRunStartup)
  | some st =>
    if hasRunStartup then (.idle, hasRunStartup)
    else
      match apps with
      | none => (.scanThenCheckAll, true)
      | some l =>
        if l.isEmpty then (.scanThenCheckAll, true)
        else if st.autoCheckOnLaunch then (.checkAll, true)
        else (.idle, true)

/-- The actions performed over a sequence of renders, threading the ref. -/
def startupTrace (hasRunStartup : Bool) :
    List (Option AppSettings × Option (List AppSummary)) → List StartupAction
  | [] => []
  | (st, apps) :: rest =>
    let r := startupEffect st apps hasRunStartup
    r.1 :: startupTrace r.2 rest

theorem startupEffect_hasRun (settings : Option AppSettings)
    (apps : Option (List AppSummary)) : startupEffect settings apps true = (.idle, true) := by
  cases settings <;> simp [startupEffect]

theorem startupTrace_hasRun (obs : List (Option AppSettings × Option (List AppSummary))) :
    ∀ a ∈ startupTrace true obs, a = StartupAction.idle := by
  induction obs with
  | nil => intro a ha; simp [startupTrace] at ha
  | cons o rest ih =>
    obtain ⟨st, apps⟩ := o
    intro a ha
    simp only [startupTrace, startupEffect_hasRun, List.mem_cons] at ha
    rcases ha with ha | ha
    · exact ha
    · exact ih a ha

/-- C6: once settings are loaded, an empty catalog forces a full scan
(followed by a check-all) regardless of `autoCheckOnLaunch`; a non-empty
catalog does startup work exactly when `autoCheckOnLaunch` is on; and
over any sequence of renders starting with a fresh ref, at most one
render performs startup work. -/
theorem startup_scan_policy :
    (∀ st : AppSettings,
      (startupEffect (some st) (some []) false).1 = StartupAction.scanThenCheckAll)
    ∧ (∀ (st : AppSettings) (a : AppSummary) (l : List AppSummary),
        ((startupEffect (some st) (some (a :: l)) false).1 ≠ StartupAction.idle ↔
          st.autoCheckOnLaunch = true))
    ∧ (∀ obs : List (Option AppSettings × Option (List AppSummary)),
        ((startupTrace false obs).filter (fun a => decide (a ≠ StartupAction.idle))).length
          ≤ 1) := by
  refine ⟨?_, ?_, ?_⟩
  · intro st
    simp [startupEffect]
  · intro st a l
    cases h : st.autoCheckOnLaunch <;> simp [startupEffect, h]
  · intro obs
    induction obs with
    | nil => simp [startupTrace]
    | cons o rest ih =>
      obtain ⟨st, apps⟩ := o
      cases st with
      | none => simpa [startupTrace, startupEffect] using ih
      | some st =>
        have h2 : (startupEffect (some st) apps false).2 = true := by
          cases apps with
          | none => rfl
          | some l =>
            by_cases he : l.isEmpty <;> cases hc : st.autoCheckOnLaunch <;>
              simp [startupEffect, he, hc]
        have hnil :
            (startupTrace true rest).filter (fun a => decide (a ≠ StartupAction.idle)) = [] := by
          rw [List.filter_eq_nil_iff]
          intro a ha
          simp [startupTrace_hasRun rest a ha]
        simp only [startupTrace, h2, List.filter_cons]
        rw [hnil]
        by_cases ha : (startupEffect (some st) apps false).1 = StartupAction.idle <;>
          simp [ha]

/-- A concrete settings record for the startup witness, with
`autoCheckOnLaunch` on. -/
def sampleSettings : AppSettings :=
  { checkIntervalMinutes := 60, launchAtLogin := false, showMenuBarIcon := true,
    notificationOnUpdates := true, autoCheckOnLaunch := true, theme := "system",
    ignoredBundleIds := [], scanLocations := ["/Applications"], scanDepth := 2,
    showBadgeCount := true, notificationSound := false }

/-- A minimal concrete app record for the startup witness. -/
def sampleCatalogApp : AppSummary :=
  { id := 2, bundleId := "com.example.editor", displayName := "Editor",
    appPath := "/Applications/Editor.app", installedVersion := some "1.0",
    installSource := "direct_download", isIgnored := false, iconCachePath := none,
    hasUpdate := false, availableVersion := none, updateSource := none,
    homebrewCaskToken := none, homebrewFormulaName := none, releaseNotes := none,
    releaseNotesUrl := none, updateNotes := none, description := none }

/-- Witness for C6: with a non-empty catalog and `autoCheckOnLaunch` on,
the startup effect performs work. -/
theorem startup_scan_policy_witness :
    (startupEffect (some sampleSettings) (some [sampleCatalogApp]) false).1
      ≠ StartupAction.idle :=
  (startup_scan_policy.2.1 sampleSettings sampleCatalogApp []).mpr rfl

/-! ### The update-progress store (src/stores/updateProgressStore.ts)

The two string-keyed records are modelled as maps from keys to optional
entries; the object spread `{...m, [k]: v}` is an insert-or-replace at
`k`, the rest-destructuring `{[k]: _, ...rest}` is a removal at `k`. -/

/-- An in-flight progress entry. -/
structure ProgressEntry where
  bundleId : String
  phase : String
  percent : ℚ
  downloadedBytes : Option ℚ
  totalBytes : Option ℚ
deriving DecidableEq, Repr

/-- A pending relaunch entry. -/
structure RelaunchEntry where
  bundleId : String
  appPath : String
deriving DecidableEq, Repr

/-- The zustand store state. -/
structure UpdateProgressState where
  progress : String → Option ProgressEntry
  relaunchNeeded : String → Option RelaunchEntry

/-- Action `setProgress`: insert-or-replace the progress entry at `bundleId`. -/
def setProgress (s : UpdateProgressState) (bundleId phase : String) (percent : ℚ)
    (downloadedBytes totalBytes : Option ℚ) : UpdateProgressState :=
  { s with progress := fun k =>
      if k = bundleId then some ⟨bundleId, phase, percent, downloadedBytes, totalBytes⟩
      else s.progress k }

/-- Action `clearProgress`: remove the progress entry at `bundleId`. -/
def clearProgress (s : UpdateProgressState) (bundleId : String) : UpdateProgressState :=
  { s with progress := fun k => if k = bundleId then none else s.progress k }

/-- Action `setRelaunchNeeded`: insert-or-replace the relaunch entry at `bundleId`. -/
def setRelaunchNeeded (s : UpdateProgressState) (bundleId appPath : String) :
    UpdateProgressState :=
  { s with relaunchNeeded := fun k =>
      if k = bundleId then some ⟨bundleId, appPath⟩ else s.relaunchNeeded k }

/-- Action `clearRelaunch`: remove the relaunch entry at `bundleId`. -/
def clearRelaunch (s : UpdateProgressState) (bundleId : String) : UpdateProgressState :=
  { s with relaunchNeeded := fun k => if k = bundleId then none else s.relaunchNeeded k }

/-- C9: every store update is isolated to its key: the four actions leave
the entries of every other bundle id, and the entire untouched map,
unchanged. -/
theorem progressStore_frame (s : UpdateProgressState) (B phase appPath : String)
    (percent : ℚ) (downloadedBytes totalBytes : Option ℚ) :
    (∀ k, k ≠ B →
      (setProgress s B phase percent downloadedBytes totalBytes).progress k = s.progress k)
    ∧ (setProgress s B phase percent downloadedBytes totalBytes).relaunchNeeded
        = s.relaunchNeeded
    ∧ (∀ k, k ≠ B → (clearProgress s B).progress k = s.progress k)
    ∧ (clearProgress s B).relaunchNeeded = s.relaunchNeeded
    ∧ (∀ k, k ≠ B → (setRelaunchNeeded s B appPath).relaunchNeeded k = s.relaunchNeeded k)
    ∧ (setRelaunchNeeded s B appPath).progress = s.progress
    ∧ (∀ k, k ≠ B → (clearRelaunch s B).relaunchNeeded k = s.relaunchNeeded k)
    ∧ (clearRelaunch s B).progress = s.progress := by
  refine ⟨?_, rfl, ?_, rfl, ?_, rfl, ?_, rfl⟩ <;>
    intro k hk <;> simp [setProgress, clearProgress, setRelaunchNeeded, clearRelaunch, hk]

/-- A concrete store state for the frame witnesses: one in-flight
download for `"com.example.a"`. -/
def sampleStoreState : UpdateProgressState :=
  { progress := fun k =>
      if k = "com.example.a" then some ⟨"com.example.a", "Downloading", 40, some 10, some 25⟩
      else none,
    relaunchNeeded := fun _ => none }

/-- Witness for C9: clearing `"com.example.a"` leaves the entry of
`"com.example.b"` unchanged. -/
theorem progressStore_frame_witness :
    (clearProgress sampleStoreState "com.example.a").progress "com.example.b"
      = sampleStoreState.progress "com.example.b" :=
  (progressStore_frame sampleStoreState "com.example.a" "Downloading" "/p" 40 none
    none).2.2.1 "com.example.b" (by decide)

/-! ### The `update-execute-complete` handler (src/hooks/useUpdateProgress.ts) -/

/-- The `update-execute-complete` event payload (src/types/update.ts);
optional fields become `Option`. -/
structure UpdateExecuteComplete where
  bundleId : String
  displayName : String
  success : Bool
  message : Option String
  needsRelaunch : Bool
  appPath : Option String
  delegated : Option Bool
deriving DecidableEq, Repr

/-- JS truthiness of an optional boolean. -/
def truthyOptBool : Option Bool → Bool
  | none => false
  | some b => b

/-- Handler `handleComplete`: a delegated completion clears the bundle's progress
(after a UI-only delay, irrelevant to the resulting state); a completion
needing relaunch with an app path moves the bundle from `progress` to
`relaunchNeeded`; everything else clears progress. -/
def handleComplete (s : UpdateProgressState) (p : UpdateExecuteComplete) :
    UpdateProgressState :=
  if truthyOptBool p.delegated = true then
    clearProgress s p.bundleId
  else if p.needsRelaunch && truthyStr p.appPath then
    setRelaunchNeeded (clearProgress s p.bundleId) p.bundleId (p.appPath.getD "")
  else
    clearProgress s p.bundleId

/-- C7: a delegated completion never touches the `relaunchNeeded` map,
for any prior store state; a non-delegated completion with
`needsRelaunch = true` and a non-empty `appPath` removes the bundle's
progress entry and adds a relaunch entry for exactly that bundle id,
leaving all other keys of both maps unchanged. -/
theorem handleComplete_relaunch (s : UpdateProgressState) (p : UpdateExecuteComplete) :
    (truthyOptBool p.delegated = true →
      (handleComplete s p).relaunchNeeded = s.relaunchNeeded)
    ∧ (truthyOptBool p.delegated = false → p.needsRelaunch = true →
        ∀ path : String, p.appPath = some path → path ≠ "" →
          (handleComplete s p).progress p.bundleId = none
          ∧ (handleComplete s p).relaunchNeeded p.bundleId = some ⟨p.bundleId, path⟩
          ∧ (∀ k, k ≠ p.bundleId →
              (handleComplete s p).relaunchNeeded k = s.relaunchNeeded k)
          ∧ (∀ k, k ≠ p.bundleId → (handleComplete s p).progress k = s.progress k)) := by
  constructor
  · intro h
    simp [handleComplete, h, clearProgress]
  · intro hd hr path hp hne
    have ht : truthyStr p.appPath = true := by
      simp [truthyStr, hp, hne]
    have ht2 : truthyStr (some path) = true := by
      simp [truthyStr, hne]
    refine ⟨?_, ?_, ?_, ?_⟩
    · simp [handleComplete, hd, hr, ht, setRelaunchNeeded, clearProgress]
    · simp [handleComplete, hd, hr, ht, hp, ht2, setRelaunchNeeded]
    · intro k hk
      simp [handleComplete, hd, hr, ht, setRelaunchNeeded, clearProgress, hk]
    · intro k hk
      simp [handleComplete, hd, hr, ht, setRelaunchNeeded, clearProgress, hk]

/-- A concrete non-delegated completion payload needing relaunch. -/
def sampleCompleteEvent : UpdateExecuteComplete :=
  { bundleId := "com.example.a", displayName := "A", success := true,
    message := none, needsRelaunch := true, appPath := some "/Applications/A.app",
    delegated := none }

/-- Witness for C7: handling the concrete relaunch payload records the
relaunch entry for its bundle id. -/
theorem handleComplete_relaunch_witness :
    (handleComplete sampleStoreState sampleCompleteEvent).relaunchNeeded "com.example.a"
      = some ⟨"com.example.a", "/Applications/A.app"⟩ :=
  ((handleComplete_relaunch sampleStoreState sampleCompleteEvent).2 rfl rfl
    "/Applications/A.app" rfl (by decide)).2.1

/-! ### `filterApps` (AppListView.tsx) -/

/-- JS `String.prototype.trim`, over the character list. -/
def jsTrimString (s : String) : String :=
  String.mk
    ((s.data.dropWhile Char.isWhitespace).reverse.dropWhile Char.isWhitespace |>.reverse)

/-- JS `String.prototype.toLowerCase`, character by character. -/
def jsToLower (s : String) : String :=
  String.mk (s.data.map Char.toLower)

/-- Character-list prefix test. -/
def charsPrefixOf : List Char → List Char → Bool
  | [], _ => true
  | _ :: _, [] => false
  | a :: as, b :: bs => a == b && charsPrefixOf as bs

/-- Character-list substring test: the needle is a prefix of some suffix
of the haystack. -/
def charsInfixOf (q : List Char) : List Char → Bool
  | [] => q.isEmpty
  | c :: cs => charsPrefixOf q (c :: cs) || charsInfixOf q cs

/-- JS `String.prototype.includes`: substring containment. -/
def strIncludes (s q : String) : Bool :=
  charsInfixOf q.data s.data

/-- Function `filterApps(apps, search, filterView)`: keep the apps of the selected
view, then — when the trimmed search is non-empty — the apps whose
lowercased display name, bundle id, or install source contains the
lowercased trimmed query. -/
def filterApps (apps : List AppSummary) (search : String) (filterView : String) :
    List AppSummary :=
  let filtered :=
    if filterView = "updates" then apps.filter (fun a => a.hasUpdate)
    else if filterView = "ignored" then apps.filter (fun a => a.isIgnored)
    else apps
  if jsTrimString search ≠ "" then
    let q := jsTrimString (jsToLower search)
    filtered.filter (fun a =>
      strIncludes (jsToLower a.displayName) q || strIncludes (jsToLower a.bundleId) q
        || strIncludes (jsToLower a.installSource) q)
  else
    filtered

/-- The per-view selection predicate the claim describes. -/
def viewKeeps (filterView : String) (a : AppSummary) : Bool :=
  if filterView = "updates" then a.hasUpdate
  else if filterView = "ignored" then a.isIgnored
  else true

/-- The search predicate the claim describes, for a prepared query. -/
def searchMatches (q : String) (a : AppSummary) : Bool :=
  strIncludes (jsToLower a.displayName) q || strIncludes (jsToLower a.bundleId) q
    || strIncludes (jsToLower a.installSource) q

/-- C8: `filterApps` is a pure selection: its result is a sublist of the
input (order preserved, nothing duplicated or invented); with an empty
trimmed search it is exactly the input filtered by the view predicate
(`hasUpdate` for "updates", `isIgnored` for "ignored", everything
otherwise); with a non-empty trimmed search it is exactly the input
filtered by the conjunction of the view predicate and the query match on
display name, bundle id, or install source. -/
theorem filterApps_characterization (apps : List AppSummary) (search filterView : String) :
    List.Sublist (filterApps apps search filterView) apps
    ∧ (jsTrimString search = "" →
        filterApps apps search filterView = apps.filter (viewKeeps filterView))
    ∧ (jsTrimString search ≠ "" →
        filterApps apps search filterView =
          apps.filter (fun a =>
            viewKeeps filterView a && searchMatches (jsTrimString (jsToLower search)) a)) := by
  refine ⟨?_, ?_, ?_⟩
  · by_cases hs : jsTrimString search = "" <;>
      by_cases h1 : filterView = "updates" <;>
      by_cases h2 : filterView = "ignored" <;>
      simp only [filterApps, hs, h1, h2, if_true, if_false, ne_eq, not_true_eq_false,
        not_false_eq_true] <;>
      first
        | exact List.Sublist.refl _
        | exact List.filter_sublist _
        | exact (List.filter_sublist _).trans (List.filter_sublist _)
  · intro hs
    by_cases h1 : filterView = "updates"
    · subst h1
      simp only [filterApps, hs, ne_eq, not_true_eq_false, if_true, if_false]
      refine List.filter_congr ?_
      intro a _
      simp [viewKeeps]
    · by_cases h2 : filterView = "ignored"
      · subst h2
        simp only [filterApps, hs, h1, ne_eq, not_true_eq_false, if_true, if_false]
        refine List.filter_congr ?_
        intro a _
        simp [viewKeeps]
      · simp only [filterApps, hs, h1, h2, ne_eq, not_true_eq_false, if_true, if_false]
        symm
        rw [List.filter_eq_self]
        intro a _
        simp [viewKeeps, h1, h2]
  · intro hs
    by_cases h1 : filterView = "updates"
    · subst h1
      simp [filterApps, viewKeeps, searchMatches, hs, List.filter_filter, Bool.and_comm]
    · by_cases h2 : filterView = "ignored"
      · subst h2
        simp [filterApps, viewKeeps, searchMatches, hs, h1, List.filter_filter,
          Bool.and_comm]
      · simp [filterApps, viewKeeps, searchMatches, hs, h1, h2, List.filter_filter,
          Bool.and_comm]

/-- Witness for C8 at concrete inputs: with view "updates" and a blank
search, `filterApps` keeps exactly the apps with an update. -/
theorem filterApps_characterization_witness :
    filterApps [sampleAdobeApp, sampleCatalogApp] " " "updates"
      = List.filter (viewKeeps "updates") [sampleAdobeApp, sampleCatalogApp] :=
  (filterApps_characterization [sampleAdobeApp, sampleCatalogApp] " " "updates").2.1 rfl

/-! ### `getUpdateHistory` (src/lib/tauri-commands.ts) -/

/-- The backend invocation produced by `getUpdateHistory`:
`invoke("get_update_history", { limit: ... })`. -/
structure InvokeHistoryCall where
  command : String
  limitArg : ℤ
deriving DecidableEq, Repr

/-- Function `getUpdateHistory(limit?)`: `invoke("get_update_history",
{ limit: limit ?? 50 })` — the nullish coalescing supplies 50 when the
caller passes no limit. -/
def getUpdateHistory (limit : Option ℤ) : InvokeHistoryCall :=
  { command := "get_update_history", limitArg := limit.getD 50 }

/-- C10: an absent limit invokes `get_update_history` with limit 50; a
present limit passes through unchanged. -/
theorem getUpdateHistory_limit :
    getUpdateHistory none = { command := "get_update_history", limitArg := 50 }
    ∧ ∀ n : ℤ, getUpdateHistory (some n) = { command := "get_update_history", limitArg := n } :=
  ⟨rfl, fun _ => rfl⟩
